import Mathlib

/-!
Shallow embedding of the move-legality and board-mutation engine of the
checkers script (checkers.py) and the fantasy-chess script (main_app.py).

Boards are 8×8 lists of rows of characters, exactly as in the Python
source (a list of lists of one-character strings).  Coordinates are
integers `(x, y)` and a cell access `board[y][x]` is modelled by `bGet`,
which reproduces Python list indexing: an index `i` with `0 ≤ i < len`
reads position `i`, an index with `-len ≤ i < 0` wraps and reads
position `len + i`, and any other index raises `IndexError`, modelled
as `none`.  Fallible operations return `Option`.
-/

/-- The side to move.  The source stores the strings `'white'`/`'black'`;
the variable only ever holds one of those two values, so it is embedded
as a two-constructor type. -/
inductive Side where
  | white
  | black
deriving DecidableEq, Repr

/-- The turn flip `'black' if turn == 'white' else 'white'`. -/
def Side.flip : Side → Side
  | .white => .black
  | .black => .white

/-- Python `str.islower()` on the one-character ASCII strings stored in
the boards of this program (true exactly on `'a'`-`'z'`). -/
def pyIsLower (c : Char) : Bool :=
  'a' ≤ c && c ≤ 'z'

/-- Python `str.isupper()` on the one-character ASCII strings stored in
the boards of this program (true exactly on `'A'`-`'Z'`). -/
def pyIsUpper (c : Char) : Bool :=
  'A' ≤ c && c ≤ 'Z'

/-- Python `str.lower()` on a one-character ASCII string. -/
def pyLower (c : Char) : Char :=
  c.toLower

abbrev Cell := Char

abbrev Board := List (List Cell)

/-- A coordinate pair `(x, y)`, as passed around by the source. -/
abbrev Sq := Int × Int

/-- Python list read `l[i]`: indices in `[0, len)` read directly,
indices in `[-len, 0)` wrap from the end, anything else raises
`IndexError` (modelled by `none`). -/
def pyIdx (l : List α) (i : Int) : Option α :=
  if 0 ≤ i ∧ i < l.length then l[i.toNat]?
  else if -(l.length : Int) ≤ i ∧ i < 0 then l[((l.length : Int) + i).toNat]?
  else none

/-- Python list write `l[i] = a`, with the same index semantics as
`pyIdx`; returns the updated list. -/
def pySetIdx (l : List α) (i : Int) (a : α) : Option (List α) :=
  if 0 ≤ i ∧ i < l.length then some (l.set i.toNat a)
  else if -(l.length : Int) ≤ i ∧ i < 0 then some (l.set ((l.length : Int) + i).toNat a)
  else none

/-- The read `self.board[y][x]` for a square `q = (x, y)`. -/
def bGet (b : Board) (q : Sq) : Option Cell := do
  let row ← pyIdx b q.2
  pyIdx row q.1

/-- The write `self.board[y][x] = c` for a square `q = (x, y)`.  In
Python the row list is mutated in place; functionally this replaces
row `y` by the row with position `x` overwritten. -/
def bSet (b : Board) (q : Sq) (c : Cell) : Option Board := do
  let row ← pyIdx b q.2
  let row' ← pySetIdx row q.1 c
  pySetIdx b q.2 row'

/-- Both coordinates of the square lie in `[0, 8)`. -/
def inB (q : Sq) : Prop :=
  0 ≤ q.1 ∧ q.1 < 8 ∧ 0 ≤ q.2 ∧ q.2 < 8

instance (q : Sq) : Decidable (inB q) := by
  unfold inB; infer_instance

/-- The board has exactly 8 rows of exactly 8 cells, as every board the
program constructs does. -/
def WF8 (b : Board) : Prop :=
  b.length = 8 ∧ ∀ r ∈ b, r.length = 8

instance (b : Board) : Decidable (WF8 b) := by
  unfold WF8; infer_instance

/-- Total in-bounds cell read with natural-number coordinates: the cell
at column `x` of row `y` (the defaults are never reached on the 8×8
boards the program builds when `x, y < 8`). -/
def cellAt (b : Board) (x y : Nat) : Cell :=
  ((b[y]?.getD List.nil)[x]?).getD ' '

/-- Total in-bounds cell write with natural-number coordinates. -/
def setCell (b : Board) (x y : Nat) (c : Cell) : Board :=
  b.set y ((b[y]?.getD List.nil).set x c)

namespace Checkers

/-- Class `Move` of checkers.py: one applied transition. -/
structure Move where
  start : Sq
  stop : Sq
  piece : Cell
  captured_piece : Cell
  captured_position : Option Sq
deriving DecidableEq, Repr

/-- The initial placement built by `CheckersBoard.__init__`. -/
def initial_board : Board :=
  [[' ', 'b', ' ', 'b', ' ', 'b', ' ', 'b'],
   ['b', ' ', 'b', ' ', 'b', ' ', 'b', ' '],
   [' ', 'b', ' ', 'b', ' ', 'b', ' ', 'b'],
   [' ', ' ', ' ', ' ', ' ', ' ', ' ', ' '],
   [' ', ' ', ' ', ' ', ' ', ' ', ' ', ' '],
   ['w', ' ', 'w', ' ', 'w', ' ', 'w', ' '],
   [' ', 'w', ' ', 'w', ' ', 'w', ' ', 'w'],
   ['w', ' ', 'w', ' ', 'w', ' ', 'w', ' ']]

/-- Method `CheckersBoard.move_piece`.  Reads the moving piece and the captured
piece (from the end square, or from `captured_position` when one is
given; a tuple argument is always truthy in Python, so the test
`if not captured_position` is exactly a `None` test), then writes the
end square, clears the start square, and clears `captured_position`
when present.  Returns the updated board and the `Move` record. -/
def move_piece (b : Board) (s e : Sq) (captured_position : Option Sq) :
    Option (Board × Move) := do
  let piece ← bGet b s
  let captured_piece ←
    match captured_position with
    | none => bGet b e
    | some c => bGet b c
  let b1 ← bSet b e piece
  let b2 ← bSet b1 s ' '
  let b3 ←
    match captured_position with
    | none => pure b2
    | some c => bSet b2 c ' '
  pure (b3, ⟨s, e, piece, captured_piece, captured_position⟩)

/-- Method `CheckersBoard.undo_move`: restores the start square to the moved
piece, clears the end square, and restores the captured piece at
`captured_position` when present. -/
def undo_move (b : Board) (m : Move) : Option Board := do
  let b1 ← bSet b m.start m.piece
  let b2 ← bSet b1 m.stop ' '
  match m.captured_position with
  | none => pure b2
  | some c => bSet b2 c m.captured_piece

/-- Method `CheckersBoard.is_valid_move`.  Returns the pair
`(legal, captured_position)`.  `Int.fdiv` is Python's floor
division `//`. -/
def is_valid_move (b : Board) (s e : Sq) (turn : Side) :
    Option (Bool × Option Sq) := do
  let piece ← bGet b s
  let target ← bGet b e
  if turn = .white ∧ piece ≠ 'w' then pure (false, none)
  else if turn = .black ∧ piece ≠ 'b' then pure (false, none)
  else if target ≠ ' ' then pure (false, none)
  else
    let dx := (e.1 - s.1).natAbs
    let dy := (e.2 - s.2).natAbs
    if dx ≠ dy then pure (false, none)
    else if piece = 'w' ∧ s.2 ≤ e.2 then pure (false, none)
    else if piece = 'b' ∧ e.2 ≤ s.2 then pure (false, none)
    else if dx = 2 then
      let jump_x := Int.fdiv (s.1 + e.1) 2
      let jump_y := Int.fdiv (s.2 + e.2) 2
      let jumped_piece ← bGet b (jump_x, jump_y)
      if jumped_piece = ' ' then pure (false, none)
      else if (turn = .white ∧ jumped_piece ≠ 'b') ∨
              (turn = .black ∧ jumped_piece ≠ 'w') then pure (false, none)
      else pure (true, some (jump_x, jump_y))
    else pure (true, none)

/-- The four diagonal directions iterated by
`CheckersBoard.get_possible_moves`. -/
def directions : List (Int × Int) :=
  [(-1, -1), (1, -1), (-1, 1), (1, 1)]

/-- The moves contributed by one own piece at `(x, y)` and one
direction `d` in `CheckersBoard.get_possible_moves`: the neighbor if
empty; otherwise (the `elif` distance test is trivially true for a
diagonal neighbor, and is kept from the source) the square beyond in
the same direction if it is in bounds and empty.  Every read here is
guarded in bounds in the source, so the total `cellAt` is exact. -/
def candidate_moves (b : Board) (x y : Nat) (d : Int × Int) : List (Sq × Sq) :=
  let nx : Int := (x : Int) + d.1
  let ny : Int := (y : Int) + d.2
  if 0 ≤ nx ∧ nx < 8 ∧ 0 ≤ ny ∧ ny < 8 then
    if cellAt b nx.toNat ny.toNat = ' ' then
      [(((x : Int), (y : Int)), (nx, ny))]
    else if (nx - (x : Int)).natAbs = 1 ∧ (ny - (y : Int)).natAbs = 1 then
      let jump_x := nx + d.1
      let jump_y := ny + d.2
      if 0 ≤ jump_x ∧ jump_x < 8 ∧ 0 ≤ jump_y ∧ jump_y < 8 ∧
          cellAt b jump_x.toNat jump_y.toNat = ' ' then
        [(((x : Int), (y : Int)), (jump_x, jump_y))]
      else []
    else []
  else []

/-- Method `CheckersBoard.get_possible_moves`: all candidate pairs, iterating
rows, then columns, then the four directions, keeping only own
pieces. -/
def get_possible_moves (b : Board) (turn : Side) : List (Sq × Sq) :=
  (List.range 8).flatMap fun y =>
    (List.range 8).flatMap fun x =>
      if (turn = .white ∧ cellAt b x y = 'w') ∨
          (turn = .black ∧ cellAt b x y = 'b') then
        directions.flatMap fun d => candidate_moves b x y d
      else []

/-- The state of a `CheckersGame`: board, side to move, move history
(most recent last, matching `list.append` / `list.pop`). -/
structure Game where
  board : Board
  turn : Side
  history : List Move
deriving DecidableEq, Repr

/-- Constructor `CheckersGame.__init__`. -/
def Game.init : Game :=
  ⟨initial_board, .white, []⟩

end Checkers

/-- Outcome of submitting a move to a game loop iteration. -/
inductive SubmitRes where
  | ok
  | illegal
deriving DecidableEq, Repr

/-- Outcome of an `undo` request. -/
inductive UndoRes where
  | reverted
  | noHistory
deriving DecidableEq, Repr

namespace Checkers

/-- One move-submission iteration of `CheckersGame.play`: validate,
and on success move the piece, append the record and flip the turn; on
rejection leave the state untouched.  `none` models an uncaught
`IndexError` from out-of-range coordinates. -/
def submit (g : Game) (s e : Sq) : Option (SubmitRes × Game) := do
  let (valid, captured_position) ← is_valid_move g.board s e g.turn
  if valid then
    let (b', m) ← move_piece g.board s e captured_position
    pure (.ok, ⟨b', g.turn.flip, g.history ++ [m]⟩)
  else
    pure (.illegal, g)

/-- One `undo` iteration of `CheckersGame.play`: with an empty history
report and leave the state untouched, otherwise pop the last record,
undo it on the board and flip the turn back. -/
def undoCmd (g : Game) : Option (UndoRes × Game) :=
  match g.history.getLast? with
  | none => pure (.noHistory, g)
  | some m => do
      let b' ← undo_move g.board m
      pure (.reverted, ⟨b', g.turn.flip, g.history.dropLast⟩)

end Checkers

namespace Chess

/-- Class `Move` of main_app.py: one applied transition. -/
structure Move where
  start : Sq
  stop : Sq
  piece : Cell
  captured_piece : Cell
deriving DecidableEq, Repr

/-- Method `Wizard.is_valid_move`: the target is read first, then the move is
accepted when both coordinate distances are at most 1, or when the
target square is empty (teleport). -/
def wizardValid (s e : Sq) (b : Board) : Option Bool := do
  let target ← bGet b e
  let dx := (e.1 - s.1).natAbs
  let dy := (e.2 - s.2).natAbs
  if dx ≤ 1 ∧ dy ≤ 1 then pure true
  else if target = ' ' then pure true
  else pure false

/-- Method `Hunter.is_valid_move`: exactly two squares along one axis; the
board is not read. -/
def hunterValid (s e : Sq) : Bool :=
  let dx := (e.1 - s.1).natAbs
  let dy := (e.2 - s.2).natAbs
  (dx = 2 ∧ dy = 0) ∨ (dx = 0 ∧ dy = 2)

/-- Method `Archer.is_valid_move`.  The source condition is
`target != ' ' and target.islower() != self.color == 'white'`:
Python chains the comparison to
`(target.islower() != self.color) and (self.color == 'white')`, and
the first conjunct compares a bool with the string stored in
`self.color`, so it is always true.  The condition therefore reduces
to `target ≠ ' ' ∧ color = white`, which is what is embedded here.
The target square is only read inside the distance-3 branch. -/
def archerValid (color : Side) (s e : Sq) (b : Board) : Option Bool := do
  let dx := (e.1 - s.1).natAbs
  let dy := (e.2 - s.2).natAbs
  if (dx = 3 ∧ dy = 0) ∨ (dx = 0 ∧ dy = 3) then
    let target ← bGet b e
    if target ≠ ' ' ∧ color = .white then pure true
    else pure false
  else pure false

/-- The literal placement in `ChessBoard.__init__` before the custom
pieces are installed. -/
def base_board : Board :=
  [['r', 'n', 'b', 'q', 'k', 'b', 'n', 'r'],
   ['p', 'p', 'p', 'p', 'p', 'p', 'p', 'p'],
   [' ', ' ', ' ', ' ', ' ', ' ', ' ', ' '],
   [' ', ' ', ' ', ' ', ' ', ' ', ' ', ' '],
   [' ', ' ', ' ', ' ', ' ', ' ', ' ', ' '],
   [' ', ' ', ' ', ' ', ' ', ' ', ' ', ' '],
   ['P', 'P', 'P', 'P', 'P', 'P', 'P', 'P'],
   ['R', 'N', 'B', 'Q', 'K', 'B', 'N', 'R']]

/-- Constructor `ChessBoard.__init__`: the base placement with the six custom
pieces written over it, in source order (`board[0][2] = 'w'`, ...,
`board[7][3] = 'A'`). -/
def initial_board : Board :=
  setCell (setCell (setCell (setCell (setCell (setCell
    base_board 2 0 'w') 2 7 'W') 5 0 'h') 5 7 'H') 3 0 'a') 3 7 'A'

/-- Method `ChessBoard.move_piece`: reads the moving and captured pieces, then
writes the end square and clears the start square. -/
def move_piece (b : Board) (s e : Sq) : Option (Board × Move) := do
  let piece ← bGet b s
  let captured_piece ← bGet b e
  let b1 ← bSet b e piece
  let b2 ← bSet b1 s ' '
  pure (b2, ⟨s, e, piece, captured_piece⟩)

/-- Method `ChessBoard.undo_move`: restores the start square to the moved
piece, then the end square to the captured piece. -/
def undo_move (b : Board) (m : Move) : Option Board := do
  let b1 ← bSet b m.start m.piece
  bSet b1 m.stop m.captured_piece

/-- Method `ChessBoard.is_valid_move`: ownership check by letter case, then
the no-self-capture check, then dispatch on the lowercased piece to
the Wizard/Hunter/Archer predicate (the custom pieces are constructed
with color `white` when the moving piece is uppercase); every other
piece letter falls through to `True`. -/
def is_valid_move (b : Board) (s e : Sq) (turn : Side) : Option Bool := do
  let piece ← bGet b s
  let target ← bGet b e
  if turn = .white ∧ pyIsLower piece then pure false
  else if turn = .black ∧ pyIsUpper piece then pure false
  else if target ≠ ' ' ∧ ((turn = .white ∧ pyIsUpper target) ∨
      (turn = .black ∧ pyIsLower target)) then pure false
  else if pyLower piece = 'w' then
    wizardValid s e b
  else if pyLower piece = 'h' then
    pure (hunterValid s e)
  else if pyLower piece = 'a' then
    archerValid (if pyIsUpper piece then .white else .black) s e b
  else
    pure true

/-- The state of a `ChessGame`: board, side to move, move history. -/
structure Game where
  board : Board
  turn : Side
  history : List Move
deriving DecidableEq, Repr

/-- Constructor `ChessGame.__init__`. -/
def Game.init : Game :=
  ⟨initial_board, .white, []⟩

/-- One move-submission iteration of `ChessGame.play`: validate, and
on success move the piece, append the record and flip the turn; on
rejection leave the state untouched. -/
def submit (g : Game) (s e : Sq) : Option (SubmitRes × Game) := do
  let valid ← is_valid_move g.board s e g.turn
  if valid then
    let (b', m) ← move_piece g.board s e
    pure (.ok, ⟨b', g.turn.flip, g.history ++ [m]⟩)
  else
    pure (.illegal, g)

/-- One `undo` iteration of `ChessGame.play`. -/
def undoCmd (g : Game) : Option (UndoRes × Game) :=
  match g.history.getLast? with
  | none => pure (.noHistory, g)
  | some m => do
      let b' ← undo_move g.board m
      pure (.reverted, ⟨b', g.turn.flip, g.history.dropLast⟩)

end Chess

section BoardLemmas

variable {b b' : Board}

/-- An in-range index read by `pyIdx` is a plain list read. -/
theorem pyIdx_inb {α : Type} {l : List α} {i : Int} (h0 : 0 ≤ i)
    (h8 : i < l.length) : pyIdx l i = l[i.toNat]? := by
  unfold pyIdx
  rw [if_pos ⟨h0, h8⟩]

theorem getD_row (hwf : WF8 b) {y : Nat} (hy : y < 8) :
    ∃ h : y < b.length, b[y]?.getD List.nil = b[y] ∧ (b[y]).length = 8 := by
  obtain ⟨hb, hr⟩ := hwf
  have h : y < b.length := by omega
  refine ⟨h, ?_, hr _ (List.getElem_mem h)⟩
  rw [List.getElem?_eq_getElem h]
  rfl

/-- In bounds and on a well-formed board, `bGet` returns the cell. -/
theorem bGet_inb (hwf : WF8 b) {q : Sq} (h : inB q) :
    bGet b q = some (cellAt b q.1.toNat q.2.toNat) := by
  obtain ⟨h1, h2, h3, h4⟩ := h
  have hy : q.2.toNat < 8 := by omega
  obtain ⟨hylt, hrow, hrlen⟩ := getD_row hwf hy
  have hblen := hwf.1
  have hx : q.1.toNat < (b[q.2.toNat]).length := by omega
  have e1 : pyIdx b q.2 = some b[q.2.toNat] := by
    rw [pyIdx_inb h3 (by omega), List.getElem?_eq_getElem hylt]
  have e2 : pyIdx b[q.2.toNat] q.1 = some (b[q.2.toNat])[q.1.toNat] := by
    rw [pyIdx_inb h1 (by omega), List.getElem?_eq_getElem hx]
  have e3 : cellAt b q.1.toNat q.2.toNat = (b[q.2.toNat])[q.1.toNat] := by
    unfold cellAt
    rw [hrow, List.getElem?_eq_getElem hx]
    rfl
  unfold bGet
  simp only [Option.bind_eq_bind, e1, Option.some_bind, e2, e3]

/-- In bounds and on a well-formed board, `bSet` performs the plain
nested update. -/
theorem bSet_inb (hwf : WF8 b) {q : Sq} {c : Cell} (h : inB q) :
    bSet b q c = some (setCell b q.1.toNat q.2.toNat c) := by
  obtain ⟨h1, h2, h3, h4⟩ := h
  have hy : q.2.toNat < 8 := by omega
  obtain ⟨hylt, hrow, hrlen⟩ := getD_row hwf hy
  have hblen := hwf.1
  have hx : q.1.toNat < (b[q.2.toNat]).length := by omega
  have e1 : pyIdx b q.2 = some b[q.2.toNat] := by
    rw [pyIdx_inb h3 (by omega), List.getElem?_eq_getElem hylt]
  have e2 : pySetIdx b[q.2.toNat] q.1 c =
      some ((b[q.2.toNat]).set q.1.toNat c) := by
    unfold pySetIdx
    rw [if_pos ⟨h1, by omega⟩]
  have e3 : pySetIdx b q.2 ((b[q.2.toNat]).set q.1.toNat c) =
      some (b.set q.2.toNat ((b[q.2.toNat]).set q.1.toNat c)) := by
    unfold pySetIdx
    rw [if_pos ⟨h3, by omega⟩]
  unfold bSet
  simp only [Option.bind_eq_bind, e1, Option.some_bind, e2, e3]
  unfold setCell
  rw [hrow]

/-- The `setCell` update keeps a board well-formed. -/
theorem WF8_setCell (hwf : WF8 b) {x y : Nat} {c : Cell} (hy : y < 8) :
    WF8 (setCell b x y c) := by
  obtain ⟨hylt, hrow, hrlen⟩ := getD_row hwf hy
  refine ⟨by simpa [setCell] using hwf.1, fun r hr => ?_⟩
  rcases List.mem_or_eq_of_mem_set hr with hmem | rfl
  · exact hwf.2 r hmem
  · rw [List.length_set, hrow, hrlen]

/-- Reading after `setCell`: the written cell at the written spot, the
old cell elsewhere. -/
theorem cellAt_setCell (hwf : WF8 b) {x y x' y' : Nat} {c : Cell}
    (hx : x < 8) (hy : y < 8) :
    cellAt (setCell b x y c) x' y' =
      if x' = x ∧ y' = y then c else cellAt b x' y' := by
  obtain ⟨hylt, hrow, hrlen⟩ := getD_row hwf hy
  by_cases hyy : y' = y
  · subst hyy
    have e1 : (setCell b x y' c)[y']? =
        some ((b[y']).set x c) := by
      unfold setCell
      rw [List.getElem?_set_self hylt, hrow]
    by_cases hxx : x' = x
    · subst hxx
      unfold cellAt
      rw [e1, if_pos ⟨rfl, rfl⟩]
      show (((b[y']).set x' c)[x']?).getD ' ' = c
      rw [List.getElem?_set_self (by omega)]
      rfl
    · unfold cellAt
      rw [e1, if_neg (by tauto)]
      show (((b[y']).set x c)[x']?).getD ' ' = _
      rw [List.getElem?_set_ne (by omega), hrow]
  · have e1 : (setCell b x y c)[y']? = b[y']? := by
      unfold setCell
      exact List.getElem?_set_ne (by omega)
    unfold cellAt
    rw [e1, if_neg (by tauto)]

/-- Two well-formed boards with the same cells are equal. -/
theorem board_ext (h1 : WF8 b) (h2 : WF8 b')
    (h : ∀ x y : Nat, x < 8 → y < 8 → cellAt b x y = cellAt b' x y) :
    b = b' := by
  have hb8 := h1.1
  have hb8' := h2.1
  apply List.ext_getElem (by omega)
  intro y hy1 hy2
  have hy : y < 8 := by omega
  obtain ⟨hylt, hrow, hrlen⟩ := getD_row h1 hy
  obtain ⟨hylt', hrow', hrlen'⟩ := getD_row h2 hy
  apply List.ext_getElem (by rw [hrlen, hrlen'])
  intro x hx1 hx2
  have hx : x < 8 := by omega
  have hcell := h x y hx hy
  unfold cellAt at hcell
  rw [hrow, hrow', List.getElem?_eq_getElem hx1,
    List.getElem?_eq_getElem hx2] at hcell
  exact hcell

end BoardLemmas

/-- The character representing a side's man in checkers.py. -/
def sideChar : Side → Cell
  | .white => 'w'
  | .black => 'b'

/-- The character representing the opposing side's man in checkers.py. -/
def oppChar : Side → Cell
  | .white => 'b'
  | .black => 'w'

/-- The forward direction of a checkers man: white men move toward
decreasing `y`, black men toward increasing `y`. -/
def forwardDir (turn : Side) (s e : Sq) : Prop :=
  match turn with
  | .white => e.2 < s.2
  | .black => s.2 < e.2

instance (turn : Side) (s e : Sq) : Decidable (forwardDir turn s e) := by
  unfold forwardDir
  cases turn <;> infer_instance

theorem Side.flip_flip (t : Side) : t.flip.flip = t := by
  cases t <;> rfl

/-- A chess piece belongs to White when its letter is uppercase and to
Black when it is lowercase, as tested by `ChessBoard.is_valid_move`. -/
def chessBelongs (turn : Side) (c : Cell) : Prop :=
  match turn with
  | .white => pyIsUpper c = true
  | .black => pyIsLower c = true

instance (turn : Side) (c : Cell) : Decidable (chessBelongs turn c) := by
  unfold chessBelongs
  cases turn <;> infer_instance

theorem pyIsUpper_not_lower {c : Cell} (h : pyIsUpper c = true) :
    pyIsLower c = false := by
  simp only [pyIsUpper, Bool.and_eq_true, decide_eq_true_eq] at h
  by_contra hc
  rw [Bool.not_eq_false] at hc
  simp only [pyIsLower, Bool.and_eq_true, decide_eq_true_eq] at hc
  exact absurd (lt_of_le_of_lt h.2 (lt_of_lt_of_le (by decide : 'Z' < 'a') hc.1))
    (lt_irrefl c)

theorem pyIsLower_not_upper {c : Cell} (h : pyIsLower c = true) :
    pyIsUpper c = false := by
  simp only [pyIsLower, Bool.and_eq_true, decide_eq_true_eq] at h
  by_contra hc
  rw [Bool.not_eq_false] at hc
  simp only [pyIsUpper, Bool.and_eq_true, decide_eq_true_eq] at hc
  exact absurd (lt_of_le_of_lt hc.2 (lt_of_lt_of_le (by decide : 'Z' < 'a') h.1))
    (lt_irrefl c)

theorem pyIsUpper_ne_space {c : Cell} (h : pyIsUpper c = true) : c ≠ ' ' := by
  simp only [pyIsUpper, Bool.and_eq_true, decide_eq_true_eq] at h
  intro hc
  rw [hc] at h
  exact absurd h.1 (by decide)

theorem pyIsLower_ne_space {c : Cell} (h : pyIsLower c = true) : c ≠ ' ' := by
  simp only [pyIsLower, Bool.and_eq_true, decide_eq_true_eq] at h
  intro hc
  rw [hc] at h
  exact absurd h.1 (by decide)

/-- Claim C4: the claim asserts that in both variants a move whose
start square does not hold a piece of the side to move — in particular
an empty start square — is rejected.  The chess validator tests
ownership with `piece.islower()` / `piece.isupper()`, both of which
are false for `' '`, and the dispatch on `piece.lower()` then falls
through to `return True`, so a move of an empty square is accepted:
on the initial chess board, White "moving" the empty square `(0,2)`
to the empty square `(0,3)` is reported legal. -/
theorem C4_empty_start_accepted :
    cellAt Chess.initial_board 0 2 = ' ' ∧
    Chess.is_valid_move Chess.initial_board (0, 2) (0, 3) .white = some true := by
  constructor
  · rfl
  · rfl

/-- A chess board with a White pawn placed on `(3,3)`, three squares
straight down the file from the Black archer that starts on `(3,0)`. -/
def archerTestBoard : Board :=
  setCell Chess.initial_board 3 3 'P'

/-- Claim C2: the claim asserts that an Archer of either colour may
move exactly three squares along one axis onto an opposing piece.  In
the source, `Archer.is_valid_move` tests
`target.islower() != self.color == 'white'`, a chained comparison
whose first link compares a bool with a string and is thus always
true, so the whole test reduces to `target != ' ' and
self.color == 'white'`: a Black archer is rejected even on a
distance-3 move onto a White piece. -/
theorem C2_black_archer_rejected :
    cellAt archerTestBoard 3 0 = 'a' ∧
    cellAt archerTestBoard 3 3 = 'P' ∧
    Chess.is_valid_move archerTestBoard (3, 0) (3, 3) .black = some false := by
  refine ⟨rfl, rfl, rfl⟩

/-- Claim C8, counterexample: the claim asserts that reading a cell at
a coordinate outside `[0,8)` fails, but Python indexing wraps negative
indices: on the initial checkers board the read at `x = -1` succeeds
and returns the piece stored at `x = 7` of the top row. -/
theorem C8_counterexample :
    ¬ 0 ≤ (-1 : Int) ∧ bGet Checkers.initial_board (-1, 0) = some 'b' := by
  exact ⟨by decide, rfl⟩

/-- Claim C3, counterexample: the claim asserts that a diagonal
forward move of a checkers man onto an empty square with `|dx|`
other than 1 or 2 is illegal, but the validator special-cases only
`|dx| == 2` and accepts every other diagonal forward move onto an
empty square: White moving `(0,7)` to `(3,4)` (`|dx| = 3`) is
accepted. -/
theorem C3_counterexample :
    cellAt Checkers.initial_board 0 7 = 'w' ∧
    cellAt Checkers.initial_board 3 4 = ' ' ∧
    ((3 : Int) - 0).natAbs = 3 ∧
    Checkers.is_valid_move Checkers.initial_board (0, 7) (3, 4) .white =
      some (true, none) := by
  refine ⟨rfl, rfl, by decide, rfl⟩

/-- Claim C5, counterexample: the claim asserts that every distance-2
pair produced by `get_possible_moves` jumps an opposing piece, but the
generator only tests that the neighbor square is occupied: from the
initial board it produces the white jump `(1,6) → (3,4)` over White's
own man on `(2,5)`. -/
theorem C5_counterexample :
    cellAt Checkers.initial_board 2 5 = 'w' ∧
    (((1 : Int), (6 : Int)), ((3 : Int), (4 : Int))) ∈
      Checkers.get_possible_moves Checkers.initial_board .white := by
  exact ⟨rfl, by decide⟩

/-- Claim C7: in both variants a rejected submission and an undo on an
empty history leave the whole game state (board, side to move and
history) unchanged: the rejected-submit result always carries the
original state, and an undo with empty history reports `noHistory`
with the original state. -/
theorem C7_failure_leaves_state :
    (∀ (g : Checkers.Game) (s e : Sq) (r : SubmitRes × Checkers.Game),
      Checkers.submit g s e = some r → r.1 = .illegal → r.2 = g) ∧
    (∀ g : Checkers.Game, g.history = [] →
      Checkers.undoCmd g = some (.noHistory, g)) ∧
    (∀ (g : Chess.Game) (s e : Sq) (r : SubmitRes × Chess.Game),
      Chess.submit g s e = some r → r.1 = .illegal → r.2 = g) ∧
    (∀ g : Chess.Game, g.history = [] →
      Chess.undoCmd g = some (.noHistory, g)) := by
  refine ⟨?_, ?_, ?_, ?_⟩
  · intro g s e r hsub hil
    unfold Checkers.submit at hsub
    cases hv : Checkers.is_valid_move g.board s e g.turn with
    | none => rw [hv] at hsub; exact absurd hsub (by simp)
    | some p =>
      obtain ⟨valid, cap⟩ := p
      rw [hv] at hsub
      simp only [Option.bind_eq_bind, Option.some_bind] at hsub
      cases valid with
      | false =>
        simp only [Bool.false_eq_true, if_false, Option.pure_def,
          Option.some_inj] at hsub
        rw [← hsub]
      | true =>
        simp only [if_true] at hsub
        cases hm : Checkers.move_piece g.board s e cap with
        | none => rw [hm] at hsub; exact absurd hsub (by simp)
        | some bm =>
          rw [hm] at hsub
          simp only [Option.bind_eq_bind, Option.some_bind, Option.pure_def,
            Option.some_inj] at hsub
          rw [← hsub] at hil
          exact absurd hil (by simp)
  · intro g hh
    unfold Checkers.undoCmd
    rw [hh]
    rfl
  · intro g s e r hsub hil
    unfold Chess.submit at hsub
    cases hv : Chess.is_valid_move g.board s e g.turn with
    | none => rw [hv] at hsub; exact absurd hsub (by simp)
    | some valid =>
      rw [hv] at hsub
      simp only [Option.bind_eq_bind, Option.some_bind] at hsub
      cases valid with
      | false =>
        simp only [Bool.false_eq_true, if_false, Option.pure_def,
          Option.some_inj] at hsub
        rw [← hsub]
      | true =>
        simp only [if_true] at hsub
        cases hm : Chess.move_piece g.board s e with
        | none => rw [hm] at hsub; exact absurd hsub (by simp)
        | some bm =>
          rw [hm] at hsub
          simp only [Option.bind_eq_bind, Option.some_bind, Option.pure_def,
            Option.some_inj] at hsub
          rw [← hsub] at hil
          exact absurd hil (by simp)
  · intro g hh
    unfold Chess.undoCmd
    rw [hh]
    rfl

/-- Witness for C7: the fresh sessions of both variants, a rejected
checkers submission (White has no man on `(0,4)`) and a rejected chess
submission (Black's rook on `(0,0)` is not White's piece). -/
theorem C7_witness :
    Checkers.undoCmd Checkers.Game.init = some (.noHistory, Checkers.Game.init) ∧
    Chess.undoCmd Chess.Game.init = some (.noHistory, Chess.Game.init) ∧
    Checkers.submit Checkers.Game.init (0, 4) (0, 3) =
      some (.illegal, Checkers.Game.init) ∧
    Chess.submit Chess.Game.init (0, 0) (0, 1) =
      some (.illegal, Chess.Game.init) := by
  refine ⟨C7_failure_leaves_state.2.1 _ rfl, C7_failure_leaves_state.2.2.2 _ rfl,
    ?_, ?_⟩
  · have h : Checkers.submit Checkers.Game.init (0, 4) (0, 3) =
        some (.illegal, Checkers.Game.init) := rfl
    have := C7_failure_leaves_state.1 Checkers.Game.init (0, 4) (0, 3) _ h rfl
    exact h
  · have h : Chess.submit Chess.Game.init (0, 0) (0, 1) =
        some (.illegal, Chess.Game.init) := rfl
    have := C7_failure_leaves_state.2.2.1 Chess.Game.init (0, 0) (0, 1) _ h rfl
    exact h

/-- Claim C9, counterexample: the claim concludes that every
validated move has distinct start and end squares, but the chess
validator accepts the null move of an EMPTY square: `' '` passes both
ownership case checks, the no-self-capture test is skipped because
the target is `' '`, and the dispatch on `piece.lower()` falls
through to `return True` — so on the initial board the "move"
`(0,2) → (0,2)` is validated with start = end. -/
theorem C9_counterexample :
    cellAt Chess.initial_board 0 2 = ' ' ∧
    Chess.is_valid_move Chess.initial_board (0, 2) (0, 2) .white =
      some true := by
  exact ⟨rfl, rfl⟩

/-- Claim C9 (amended): in both variants, a square holding a piece
BELONGING TO the side to move is never a legal destination for
itself: the checkers validator rejects because the target square is
not empty, and the chess validator rejects by the no-self-capture
test.  Only moves from such own-piece squares are guaranteed to have
distinct start and end; a chess move validated from an empty start
square (the empty-start fall-through) may have start = end, so the
`start != end` precondition of `Board.apply` is not established for
every validated move. -/
theorem C9_no_null_move :
    ∀ (b : Board) (s : Sq) (turn : Side), WF8 b → inB s →
    (cellAt b s.1.toNat s.2.toNat = sideChar turn →
      Checkers.is_valid_move b s s turn = some (false, none)) ∧
    (chessBelongs turn (cellAt b s.1.toNat s.2.toNat) →
      Chess.is_valid_move b s s turn = some false) := by
  intro b s turn hwf hs
  constructor
  · intro hp
    unfold Checkers.is_valid_move
    rw [bGet_inb hwf hs]
    simp only [Option.bind_eq_bind, Option.some_bind]
    cases turn with
    | white =>
      simp only [sideChar] at hp
      rw [hp]
      simp
    | black =>
      simp only [sideChar] at hp
      rw [hp]
      simp
  · intro hp
    unfold Chess.is_valid_move
    rw [bGet_inb hwf hs]
    simp only [Option.bind_eq_bind, Option.some_bind]
    cases turn with
    | white =>
      simp only [chessBelongs] at hp
      rw [pyIsUpper_not_lower hp]
      simp [pyIsUpper_ne_space hp, hp]
    | black =>
      simp only [chessBelongs] at hp
      rw [pyIsLower_not_upper hp]
      simp [pyIsLower_ne_space hp, hp]

/-- Witness for C9: the white checkers man on `(0,5)` and the white
rook on `(0,7)` of the initial boards may not move onto their own
squares. -/
theorem C9_witness :
    Checkers.is_valid_move Checkers.initial_board (0, 5) (0, 5) .white =
      some (false, none) ∧
    Chess.is_valid_move Chess.initial_board (0, 7) (0, 7) .white =
      some false := by
  exact ⟨(C9_no_null_move Checkers.initial_board (0, 5) .white (by decide)
      (by decide)).1 (by decide),
    (C9_no_null_move Chess.initial_board (0, 7) .white (by decide)
      (by decide)).2 (by decide)⟩

/-- Claim C6: once the ownership and no-self-capture checks of the
chess validator pass, a Wizard move is legal exactly when the
Chebyshev distance is at most 1 or the target square is empty
(teleport), for either colour of Wizard. -/
theorem C6_wizard_teleport :
    ∀ (b : Board) (s e : Sq) (turn : Side), WF8 b → inB s → inB e →
    ((turn = .white ∧ cellAt b s.1.toNat s.2.toNat = 'W') ∨
     (turn = .black ∧ cellAt b s.1.toNat s.2.toNat = 'w')) →
    ¬(cellAt b e.1.toNat e.2.toNat ≠ ' ' ∧
        ((turn = .white ∧ pyIsUpper (cellAt b e.1.toNat e.2.toNat) = true) ∨
         (turn = .black ∧ pyIsLower (cellAt b e.1.toNat e.2.toNat) = true))) →
    Chess.is_valid_move b s e turn =
      some (decide (((e.1 - s.1).natAbs ≤ 1 ∧ (e.2 - s.2).natAbs ≤ 1) ∨
        cellAt b e.1.toNat e.2.toNat = ' ')) := by
  intro b s e turn hwf hs he hpiece htarget
  unfold Chess.is_valid_move
  rw [bGet_inb hwf hs, bGet_inb hwf he]
  simp only [Option.bind_eq_bind, Option.some_bind]
  have hwiz : Chess.wizardValid s e b =
      some (decide (((e.1 - s.1).natAbs ≤ 1 ∧ (e.2 - s.2).natAbs ≤ 1) ∨
        cellAt b e.1.toNat e.2.toNat = ' ')) := by
    unfold Chess.wizardValid
    rw [bGet_inb hwf he]
    simp only [Option.bind_eq_bind, Option.some_bind]
    by_cases h1 : (e.1 - s.1).natAbs ≤ 1 ∧ (e.2 - s.2).natAbs ≤ 1
    · simp [h1]
    · by_cases h2 : cellAt b e.1.toNat e.2.toNat = ' ' <;> simp [h1, h2]
  rcases hpiece with ⟨ht, hp⟩ | ⟨ht, hp⟩ <;> subst ht <;> rw [hp]
  · rw [if_neg (by decide), if_neg (by decide), if_neg htarget,
      if_pos (by decide)]
    exact hwiz
  · rw [if_neg (by decide), if_neg (by decide), if_neg htarget,
      if_pos (by decide)]
    exact hwiz

/-- An otherwise empty board with a White wizard on `(0,0)`. -/
def wizardTestBoard : Board :=
  setCell
    [[' ', ' ', ' ', ' ', ' ', ' ', ' ', ' '],
     [' ', ' ', ' ', ' ', ' ', ' ', ' ', ' '],
     [' ', ' ', ' ', ' ', ' ', ' ', ' ', ' '],
     [' ', ' ', ' ', ' ', ' ', ' ', ' ', ' '],
     [' ', ' ', ' ', ' ', ' ', ' ', ' ', ' '],
     [' ', ' ', ' ', ' ', ' ', ' ', ' ', ' '],
     [' ', ' ', ' ', ' ', ' ', ' ', ' ', ' '],
     [' ', ' ', ' ', ' ', ' ', ' ', ' ', ' ']] 0 0 'W'

/-- Witness for C6: the White wizard on `(0,0)` teleports to the empty
corner `(7,7)`. -/
theorem C6_witness :
    Chess.is_valid_move wizardTestBoard (0, 0) (7, 7) .white = some true := by
  have h := C6_wizard_teleport wizardTestBoard (0, 0) (7, 7) .white (by decide)
    (by decide) (by decide) (Or.inl ⟨rfl, by decide⟩) (by decide)
  rw [h]
  decide

theorem pyIdx_oob {α : Type} {l : List α} {i : Int} (h8 : l.length = 8)
    (h : i < -8 ∨ 8 ≤ i) : pyIdx l i = none := by
  unfold pyIdx
  rw [if_neg (by omega), if_neg (by omega)]

theorem pyIdx_mem {α : Type} {l : List α} {i : Int} (h8 : l.length = 8)
    (h : -8 ≤ i ∧ i < 8) : ∃ a, pyIdx l i = some a ∧ a ∈ l := by
  unfold pyIdx
  by_cases h0 : 0 ≤ i
  · rw [if_pos ⟨h0, by omega⟩]
    have hlt : i.toNat < l.length := by omega
    exact ⟨l[i.toNat], List.getElem?_eq_getElem hlt, List.getElem_mem hlt⟩
  · rw [if_neg (by omega), if_pos ⟨by omega, by omega⟩]
    have hlt : ((l.length : Int) + i).toNat < l.length := by omega
    exact ⟨l[((l.length : Int) + i).toNat], List.getElem?_eq_getElem hlt,
      List.getElem_mem hlt⟩

/-- Claim C8 (amended): the cell read `board[y][x]` fails with an
`IndexError` exactly when a coordinate is below `-8` or at least `8`;
for coordinates in `[-8,8)` it totally returns a stored cell (Python
wraps negative indices to the opposite edge), and in particular for
coordinates in `[0,8)` it returns the cell stored at `(x,y)`.  The
same `bGet` is the cell read of both variants. -/
theorem C8_get_total_or_fails :
    ∀ b : Board, WF8 b → ∀ x y : Int,
    ((x < -8 ∨ 8 ≤ x ∨ y < -8 ∨ 8 ≤ y) → bGet b (x, y) = none) ∧
    (-8 ≤ x → x < 8 → -8 ≤ y → y < 8 → ∃ c, bGet b (x, y) = some c) ∧
    (0 ≤ x → x < 8 → 0 ≤ y → y < 8 →
      bGet b (x, y) = some (cellAt b x.toNat y.toNat)) := by
  intro b hwf x y
  refine ⟨?_, ?_, ?_⟩
  · intro h
    unfold bGet
    by_cases hy : y < -8 ∨ 8 ≤ y
    · rw [pyIdx_oob hwf.1 hy]
      rfl
    · have hx : x < -8 ∨ 8 ≤ x := by
        rcases h with h | h | h | h
        · exact Or.inl h
        · exact Or.inr h
        · exact absurd (Or.inl h) hy
        · exact absurd (Or.inr h) hy
      obtain ⟨r, hr, hm⟩ := pyIdx_mem hwf.1 (show -8 ≤ y ∧ y < 8 by omega)
      rw [hr]
      simp only [Option.bind_eq_bind, Option.some_bind]
      exact pyIdx_oob (hwf.2 r hm) hx
  · intro h1 h2 h3 h4
    obtain ⟨r, hr, hm⟩ := pyIdx_mem hwf.1 ⟨h3, h4⟩
    obtain ⟨c, hc, _⟩ := pyIdx_mem (hwf.2 r hm) ⟨h1, h2⟩
    refine ⟨c, ?_⟩
    unfold bGet
    rw [hr]
    simp only [Option.bind_eq_bind, Option.some_bind]
    exact hc
  · intro h1 h2 h3 h4
    exact bGet_inb hwf ⟨h1, h2, h3, h4⟩

/-- Witness for C8: on the initial boards, the read at `x = 8` fails,
the read at `(-8,-1)` succeeds by wrapping, and the in-bounds read
`(4,6)` returns the stored white pawn. -/
theorem C8_witness :
    bGet Checkers.initial_board (8, 0) = none ∧
    (∃ c, bGet Checkers.initial_board (-8, -1) = some c) ∧
    bGet Chess.initial_board (4, 6) = some (cellAt Chess.initial_board 4 6) := by
  refine ⟨(C8_get_total_or_fails _ (by decide) 8 0).1 (by decide),
    (C8_get_total_or_fails _ (by decide) (-8) (-1)).2.1 (by decide) (by decide)
      (by decide) (by decide),
    (C8_get_total_or_fails _ (by decide) 4 6).2.2 (by decide) (by decide)
      (by decide) (by decide)⟩

/-- Claim C3 (amended): for a piece of the side to move, an empty end
square, a strictly diagonal displacement in the mover's forward
direction: when `|dx| = 2` the move is legal with the midpoint as
captured square exactly when the midpoint holds the opposing man, and
is rejected otherwise; for every other `|dx|` (1, but also 3, 4, ...)
the move is accepted as a simple move with no capture — the validator
special-cases only `|dx| == 2` and imposes no other distance limit. -/
theorem C3_checkers_rules :
    ∀ (b : Board) (s e : Sq) (turn : Side), WF8 b → inB s → inB e →
    cellAt b s.1.toNat s.2.toNat = sideChar turn →
    cellAt b e.1.toNat e.2.toNat = ' ' →
    (e.1 - s.1).natAbs = (e.2 - s.2).natAbs →
    forwardDir turn s e →
    (((e.1 - s.1).natAbs ≠ 2 →
        Checkers.is_valid_move b s e turn = some (true, none)) ∧
     ((e.1 - s.1).natAbs = 2 →
        Checkers.is_valid_move b s e turn =
          some (if cellAt b (Int.fdiv (s.1 + e.1) 2).toNat
                (Int.fdiv (s.2 + e.2) 2).toNat = oppChar turn
              then (true, some (Int.fdiv (s.1 + e.1) 2, Int.fdiv (s.2 + e.2) 2))
              else (false, none)))) := by
  intro b s e turn hwf hs he hp ht hdiag hfwd
  have hmid : inB (Int.fdiv (s.1 + e.1) 2, Int.fdiv (s.2 + e.2) 2) := by
    obtain ⟨a1, a2, a3, a4⟩ := hs
    obtain ⟨b1, b2, b3, b4⟩ := he
    refine ⟨?_, ?_, ?_, ?_⟩ <;>
      simp only [Int.fdiv_eq_ediv _ (by norm_num : (0 : Int) ≤ 2)] <;> omega
  have hmain : Checkers.is_valid_move b s e turn =
      if (e.1 - s.1).natAbs = 2
      then some (if cellAt b (Int.fdiv (s.1 + e.1) 2).toNat
            (Int.fdiv (s.2 + e.2) 2).toNat = oppChar turn
          then (true, some (Int.fdiv (s.1 + e.1) 2, Int.fdiv (s.2 + e.2) 2))
          else (false, none))
      else some (true, none) := by
    unfold Checkers.is_valid_move
    rw [bGet_inb hwf hs, bGet_inb hwf he]
    simp only [Option.bind_eq_bind, Option.some_bind]
    cases turn with
    | white =>
      simp only [sideChar] at hp
      simp only [forwardDir] at hfwd
      simp only [oppChar]
      rw [hp, ht]
      rw [if_neg (by simp), if_neg (by simp), if_neg (by simp),
        if_neg (not_not_intro hdiag),
        if_neg (fun hcon => absurd hcon.2 (by omega)),
        if_neg (by simp)]
      rw [bGet_inb hwf hmid]
      simp only [Option.bind_eq_bind, Option.some_bind]
      generalize cellAt b (Int.fdiv (s.1 + e.1) 2).toNat
        (Int.fdiv (s.2 + e.2) 2).toNat = J
      by_cases hdx2 : (e.1 - s.1).natAbs = 2
      · rw [if_pos hdx2, if_pos hdx2]
        by_cases hJ : J = 'b'
        · rw [if_neg (by simp [hJ]), if_neg (by simp [hJ]), if_pos hJ]
          rfl
        · rw [if_neg hJ]
          by_cases hsp : J = ' '
          · rw [if_pos hsp]
            rfl
          · rw [if_neg hsp, if_pos (by simp [hJ])]
            rfl
      · rw [if_neg hdx2, if_neg hdx2]
        rfl
    | black =>
      simp only [sideChar] at hp
      simp only [forwardDir] at hfwd
      simp only [oppChar]
      rw [hp, ht]
      rw [if_neg (by simp), if_neg (by simp), if_neg (by simp),
        if_neg (not_not_intro hdiag),
        if_neg (by simp),
        if_neg (fun hcon => absurd hcon.2 (by omega))]
      rw [bGet_inb hwf hmid]
      simp only [Option.bind_eq_bind, Option.some_bind]
      generalize cellAt b (Int.fdiv (s.1 + e.1) 2).toNat
        (Int.fdiv (s.2 + e.2) 2).toNat = J
      by_cases hdx2 : (e.1 - s.1).natAbs = 2
      · rw [if_pos hdx2, if_pos hdx2]
        by_cases hJ : J = 'w'
        · rw [if_neg (by simp [hJ]), if_neg (by simp [hJ]), if_pos hJ]
          rfl
        · rw [if_neg hJ]
          by_cases hsp : J = ' '
          · rw [if_pos hsp]
            rfl
          · rw [if_neg hsp, if_pos (by simp [hJ])]
            rfl
      · rw [if_neg hdx2, if_neg hdx2]
        rfl
  refine ⟨fun hdx => ?_, fun hdx => ?_⟩
  · rw [hmain, if_neg hdx]
  · rw [hmain, if_pos hdx]

/-- Witness for C3: on the initial board White steps `(0,5) → (1,4)`,
and with a black man placed on `(1,4)` White jumps `(0,5) → (2,3)`
capturing the midpoint `(1,4)`. -/
theorem C3_witness :
    Checkers.is_valid_move Checkers.initial_board (0, 5) (1, 4) .white =
      some (true, none) ∧
    Checkers.is_valid_move (setCell Checkers.initial_board 1 4 'b')
      (0, 5) (2, 3) .white = some (true, some (1, 4)) := by
  constructor
  · exact (C3_checkers_rules Checkers.initial_board (0, 5) (1, 4) .white
      (by decide) (by decide) (by decide) (by decide) (by decide) (by decide)
      (by decide)).1 (by decide)
  · have h := (C3_checkers_rules (setCell Checkers.initial_board 1 4 'b')
      (0, 5) (2, 3) .white (by decide) (by decide) (by decide) (by decide)
      (by decide) (by decide) (by decide)).2 (by decide)
    rw [h]
    decide

theorem inB_toNat {q : Sq} (h : inB q) : q.1.toNat < 8 ∧ q.2.toNat < 8 := by
  obtain ⟨h1, h2, h3, h4⟩ := h
  omega

/-- What a successful checkers validation guarantees: the end square
was empty, and the captured square, when one is returned, is in
bounds (it is the midpoint of the jump). -/
theorem chk_valid_facts {b : Board} {s e : Sq} {turn : Side} {cap : Option Sq}
    (hwf : WF8 b) (hs : inB s) (he : inB e)
    (h : Checkers.is_valid_move b s e turn = some (true, cap)) :
    cellAt b e.1.toNat e.2.toNat = ' ' ∧
      (cap = none ∨ ∃ c : Sq, cap = some c ∧ inB c) := by
  have hmid : inB (Int.fdiv (s.1 + e.1) 2, Int.fdiv (s.2 + e.2) 2) := by
    obtain ⟨a1, a2, a3, a4⟩ := hs
    obtain ⟨b1, b2, b3, b4⟩ := he
    refine ⟨?_, ?_, ?_, ?_⟩ <;>
      simp only [Int.fdiv_eq_ediv _ (by norm_num : (0 : Int) ≤ 2)] <;> omega
  unfold Checkers.is_valid_move at h
  rw [bGet_inb hwf hs, bGet_inb hwf he] at h
  simp only [Option.bind_eq_bind, Option.some_bind] at h
  rw [bGet_inb hwf hmid] at h
  simp only [Option.bind_eq_bind, Option.some_bind] at h
  split_ifs at h with c1 c2 c3 c4 c5 c6 c7 c8 c9 <;>
    simp only [Option.pure_def, Option.some_inj, Prod.mk.injEq] at h <;>
    try exact absurd h.1 Bool.false_ne_true
  · exact ⟨not_not.mp c3, Or.inr ⟨_, h.2.symm, hmid⟩⟩
  · exact ⟨not_not.mp c3, Or.inl h.2.symm⟩

/-- Undoing a checkers move restores the board, provided the end
square was empty before the move (which validation guarantees). -/
theorem chk_move_undo {b : Board} {s e : Sq} {cap : Option Sq}
    (hwf : WF8 b) (hs : inB s) (he : inB e)
    (ht : cellAt b e.1.toNat e.2.toNat = ' ')
    (hcap : cap = none ∨ ∃ c : Sq, cap = some c ∧ inB c) :
    ∃ bm : Board × Checkers.Move, Checkers.move_piece b s e cap = some bm ∧
      Checkers.undo_move bm.1 bm.2 = some b := by
  obtain ⟨hsx, hsy⟩ := inB_toNat hs
  obtain ⟨hex, hey⟩ := inB_toNat he
  rcases hcap with rfl | ⟨c, rfl, hc⟩
  · have wf1 : WF8 (setCell b e.1.toNat e.2.toNat
        (cellAt b s.1.toNat s.2.toNat)) := WF8_setCell hwf hey
    have wf2 : WF8 (setCell (setCell b e.1.toNat e.2.toNat
        (cellAt b s.1.toNat s.2.toNat)) s.1.toNat s.2.toNat ' ') :=
      WF8_setCell wf1 hsy
    have wf3 : WF8 (setCell (setCell (setCell b e.1.toNat e.2.toNat
        (cellAt b s.1.toNat s.2.toNat)) s.1.toNat s.2.toNat ' ')
        s.1.toNat s.2.toNat (cellAt b s.1.toNat s.2.toNat)) :=
      WF8_setCell wf2 hsy
    have wf4 : WF8 (setCell (setCell (setCell (setCell b e.1.toNat e.2.toNat
        (cellAt b s.1.toNat s.2.toNat)) s.1.toNat s.2.toNat ' ')
        s.1.toNat s.2.toNat (cellAt b s.1.toNat s.2.toNat))
        e.1.toNat e.2.toNat ' ') := WF8_setCell wf3 hey
    have hmv : Checkers.move_piece b s e none =
        some (setCell (setCell b e.1.toNat e.2.toNat
            (cellAt b s.1.toNat s.2.toNat)) s.1.toNat s.2.toNat ' ',
          ⟨s, e, cellAt b s.1.toNat s.2.toNat,
            cellAt b e.1.toNat e.2.toNat, none⟩) := by
      unfold Checkers.move_piece
      rw [bGet_inb hwf hs]
      simp only [Option.bind_eq_bind, Option.some_bind]
      rw [bGet_inb hwf he]
      simp only [Option.bind_eq_bind, Option.some_bind]
      rw [bSet_inb hwf he]
      simp only [Option.bind_eq_bind, Option.some_bind]
      rw [bSet_inb wf1 hs]
      simp only [Option.bind_eq_bind, Option.some_bind]
      rfl
    refine ⟨_, hmv, ?_⟩
    show Checkers.undo_move (setCell (setCell b e.1.toNat e.2.toNat
        (cellAt b s.1.toNat s.2.toNat)) s.1.toNat s.2.toNat ' ')
      ⟨s, e, cellAt b s.1.toNat s.2.toNat,
        cellAt b e.1.toNat e.2.toNat, none⟩ = some b
    unfold Checkers.undo_move
    rw [bSet_inb wf2 hs]
    simp only [Option.bind_eq_bind, Option.some_bind]
    rw [bSet_inb wf3 he]
    simp only [Option.bind_eq_bind, Option.some_bind]
    refine congrArg some (board_ext wf4 hwf fun x y hx hy => ?_)
    rw [cellAt_setCell wf3 hex hey, cellAt_setCell wf2 hsx hsy,
      cellAt_setCell wf1 hsx hsy, cellAt_setCell hwf hex hey]
    by_cases hE : x = e.1.toNat ∧ y = e.2.toNat
    · rw [if_pos hE, hE.1, hE.2]
      exact ht.symm
    · rw [if_neg hE]
      by_cases hS : x = s.1.toNat ∧ y = s.2.toNat
      · rw [if_pos hS, hS.1, hS.2]
      · rw [if_neg hS, if_neg hS, if_neg hE]
  · obtain ⟨hcx, hcy⟩ := inB_toNat hc
    have wf1 : WF8 (setCell b e.1.toNat e.2.toNat
        (cellAt b s.1.toNat s.2.toNat)) := WF8_setCell hwf hey
    have wf2 : WF8 (setCell (setCell b e.1.toNat e.2.toNat
        (cellAt b s.1.toNat s.2.toNat)) s.1.toNat s.2.toNat ' ') :=
      WF8_setCell wf1 hsy
    have wf3 : WF8 (setCell (setCell (setCell b e.1.toNat e.2.toNat
        (cellAt b s.1.toNat s.2.toNat)) s.1.toNat s.2.toNat ' ')
        c.1.toNat c.2.toNat ' ') := WF8_setCell wf2 hcy
    have wf4 : WF8 (setCell (setCell (setCell (setCell b e.1.toNat e.2.toNat
        (cellAt b s.1.toNat s.2.toNat)) s.1.toNat s.2.toNat ' ')
        c.1.toNat c.2.toNat ' ') s.1.toNat s.2.toNat
        (cellAt b s.1.toNat s.2.toNat)) := WF8_setCell wf3 hsy
    have wf5 : WF8 (setCell (setCell (setCell (setCell (setCell b
        e.1.toNat e.2.toNat (cellAt b s.1.toNat s.2.toNat))
        s.1.toNat s.2.toNat ' ') c.1.toNat c.2.toNat ' ')
        s.1.toNat s.2.toNat (cellAt b s.1.toNat s.2.toNat))
        e.1.toNat e.2.toNat ' ') := WF8_setCell wf4 hey
    have wf6 : WF8 (setCell (setCell (setCell (setCell (setCell (setCell b
        e.1.toNat e.2.toNat (cellAt b s.1.toNat s.2.toNat))
        s.1.toNat s.2.toNat ' ') c.1.toNat c.2.toNat ' ')
        s.1.toNat s.2.toNat (cellAt b s.1.toNat s.2.toNat))
        e.1.toNat e.2.toNat ' ') c.1.toNat c.2.toNat
        (cellAt b c.1.toNat c.2.toNat)) := WF8_setCell wf5 hcy
    have hmv : Checkers.move_piece b s e (some c) =
        some (setCell (setCell (setCell b e.1.toNat e.2.toNat
            (cellAt b s.1.toNat s.2.toNat)) s.1.toNat s.2.toNat ' ')
            c.1.toNat c.2.toNat ' ',
          ⟨s, e, cellAt b s.1.toNat s.2.toNat,
            cellAt b c.1.toNat c.2.toNat, some c⟩) := by
      unfold Checkers.move_piece
      rw [bGet_inb hwf hs]
      simp only [Option.bind_eq_bind, Option.some_bind]
      rw [bGet_inb hwf hc]
      simp only [Option.bind_eq_bind, Option.some_bind]
      rw [bSet_inb hwf he]
      simp only [Option.bind_eq_bind, Option.some_bind]
      rw [bSet_inb wf1 hs]
      simp only [Option.bind_eq_bind, Option.some_bind]
      rw [bSet_inb wf2 hc]
      simp only [Option.bind_eq_bind, Option.some_bind]
      rfl
    refine ⟨_, hmv, ?_⟩
    show Checkers.undo_move (setCell (setCell (setCell b e.1.toNat e.2.toNat
        (cellAt b s.1.toNat s.2.toNat)) s.1.toNat s.2.toNat ' ')
        c.1.toNat c.2.toNat ' ')
      ⟨s, e, cellAt b s.1.toNat s.2.toNat,
        cellAt b c.1.toNat c.2.toNat, some c⟩ = some b
    unfold Checkers.undo_move
    rw [bSet_inb wf3 hs]
    simp only [Option.bind_eq_bind, Option.some_bind]
    rw [bSet_inb wf4 he]
    simp only [Option.bind_eq_bind, Option.some_bind]
    rw [bSet_inb wf5 hc]
    refine congrArg some (board_ext wf6 hwf fun x y hx hy => ?_)
    rw [cellAt_setCell wf5 hcx hcy, cellAt_setCell wf4 hex hey,
      cellAt_setCell wf3 hsx hsy, cellAt_setCell wf2 hcx hcy,
      cellAt_setCell wf1 hsx hsy, cellAt_setCell hwf hex hey]
    by_cases hC : x = c.1.toNat ∧ y = c.2.toNat
    · rw [if_pos hC, hC.1, hC.2]
    · rw [if_neg hC]
      by_cases hE : x = e.1.toNat ∧ y = e.2.toNat
      · rw [if_pos hE, hE.1, hE.2]
        exact ht.symm
      · rw [if_neg hE]
        by_cases hS : x = s.1.toNat ∧ y = s.2.toNat
        · rw [if_pos hS, hS.1, hS.2]
        · rw [if_neg hS, if_neg hC, if_neg hS, if_neg hE]

/-- Undoing a chess move restores the board; no precondition beyond
bounds is needed, because the undo writes back the recorded captured
piece. -/
theorem chess_move_undo {b : Board} {s e : Sq}
    (hwf : WF8 b) (hs : inB s) (he : inB e) :
    ∃ bm : Board × Chess.Move, Chess.move_piece b s e = some bm ∧
      Chess.undo_move bm.1 bm.2 = some b := by
  obtain ⟨hsx, hsy⟩ := inB_toNat hs
  obtain ⟨hex, hey⟩ := inB_toNat he
  have wf1 : WF8 (setCell b e.1.toNat e.2.toNat
      (cellAt b s.1.toNat s.2.toNat)) := WF8_setCell hwf hey
  have wf2 : WF8 (setCell (setCell b e.1.toNat e.2.toNat
      (cellAt b s.1.toNat s.2.toNat)) s.1.toNat s.2.toNat ' ') :=
    WF8_setCell wf1 hsy
  have wf3 : WF8 (setCell (setCell (setCell b e.1.toNat e.2.toNat
      (cellAt b s.1.toNat s.2.toNat)) s.1.toNat s.2.toNat ' ')
      s.1.toNat s.2.toNat (cellAt b s.1.toNat s.2.toNat)) :=
    WF8_setCell wf2 hsy
  have wf4 : WF8 (setCell (setCell (setCell (setCell b e.1.toNat e.2.toNat
      (cellAt b s.1.toNat s.2.toNat)) s.1.toNat s.2.toNat ' ')
      s.1.toNat s.2.toNat (cellAt b s.1.toNat s.2.toNat))
      e.1.toNat e.2.toNat (cellAt b e.1.toNat e.2.toNat)) :=
    WF8_setCell wf3 hey
  have hmv : Chess.move_piece b s e =
      some (setCell (setCell b e.1.toNat e.2.toNat
          (cellAt b s.1.toNat s.2.toNat)) s.1.toNat s.2.toNat ' ',
        ⟨s, e, cellAt b s.1.toNat s.2.toNat,
          cellAt b e.1.toNat e.2.toNat⟩) := by
    unfold Chess.move_piece
    rw [bGet_inb hwf hs]
    simp only [Option.bind_eq_bind, Option.some_bind]
    rw [bGet_inb hwf he]
    simp only [Option.bind_eq_bind, Option.some_bind]
    rw [bSet_inb hwf he]
    simp only [Option.bind_eq_bind, Option.some_bind]
    rw [bSet_inb wf1 hs]
    simp only [Option.bind_eq_bind, Option.some_bind]
    rfl
  refine ⟨_, hmv, ?_⟩
  show Chess.undo_move (setCell (setCell b e.1.toNat e.2.toNat
      (cellAt b s.1.toNat s.2.toNat)) s.1.toNat s.2.toNat ' ')
    ⟨s, e, cellAt b s.1.toNat s.2.toNat,
      cellAt b e.1.toNat e.2.toNat⟩ = some b
  unfold Chess.undo_move
  rw [bSet_inb wf2 hs]
  simp only [Option.bind_eq_bind, Option.some_bind]
  rw [bSet_inb wf3 he]
  refine congrArg some (board_ext wf4 hwf fun x y hx hy => ?_)
  rw [cellAt_setCell wf3 hex hey, cellAt_setCell wf2 hsx hsy,
    cellAt_setCell wf1 hsx hsy, cellAt_setCell hwf hex hey]
  by_cases hE : x = e.1.toNat ∧ y = e.2.toNat
  · rw [if_pos hE, hE.1, hE.2]
  · rw [if_neg hE]
    by_cases hS : x = s.1.toNat ∧ y = s.2.toNat
    · rw [if_pos hS, hS.1, hS.2]
    · rw [if_neg hS, if_neg hS, if_neg hE]

/-- Claim C1: in both variants, undoing a successful submission
restores the whole session — the board bit for bit, the side to move,
and the history — to its state before the move was applied. -/
theorem C1_apply_undo_inverse :
    (∀ (g : Checkers.Game) (s e : Sq) (r : SubmitRes × Checkers.Game),
      WF8 g.board → inB s → inB e →
      Checkers.submit g s e = some r → r.1 = .ok →
      Checkers.undoCmd r.2 = some (.reverted, g)) ∧
    (∀ (g : Chess.Game) (s e : Sq) (r : SubmitRes × Chess.Game),
      WF8 g.board → inB s → inB e →
      Chess.submit g s e = some r → r.1 = .ok →
      Chess.undoCmd r.2 = some (.reverted, g)) := by
  constructor
  · intro g s e r hwf hs he hsub hok
    unfold Checkers.submit at hsub
    cases hv : Checkers.is_valid_move g.board s e g.turn with
    | none => rw [hv] at hsub; exact absurd hsub (by simp)
    | some p =>
      obtain ⟨valid, cap⟩ := p
      rw [hv] at hsub
      simp only [Option.bind_eq_bind, Option.some_bind] at hsub
      cases valid with
      | false =>
        simp only [Bool.false_eq_true, if_false, Option.pure_def,
          Option.some_inj] at hsub
        rw [← hsub] at hok
        exact absurd hok (by simp)
      | true =>
        obtain ⟨ht, hcap⟩ := chk_valid_facts hwf hs he hv
        obtain ⟨bm, hmv, hund⟩ := chk_move_undo hwf hs he ht hcap
        rw [if_pos rfl, hmv] at hsub
        simp only [Option.bind_eq_bind, Option.some_bind, Option.pure_def,
          Option.some_inj] at hsub
        subst hsub
        show Checkers.undoCmd ⟨bm.1, g.turn.flip, g.history ++ [bm.2]⟩ =
          some (.reverted, g)
        unfold Checkers.undoCmd
        rw [List.getLast?_concat]
        simp only [Option.bind_eq_bind]
        rw [hund]
        simp only [Option.some_bind, List.dropLast_concat, Side.flip_flip]
        rfl
  · intro g s e r hwf hs he hsub hok
    unfold Chess.submit at hsub
    cases hv : Chess.is_valid_move g.board s e g.turn with
    | none => rw [hv] at hsub; exact absurd hsub (by simp)
    | some valid =>
      rw [hv] at hsub
      simp only [Option.bind_eq_bind, Option.some_bind] at hsub
      cases valid with
      | false =>
        simp only [Bool.false_eq_true, if_false, Option.pure_def,
          Option.some_inj] at hsub
        rw [← hsub] at hok
        exact absurd hok (by simp)
      | true =>
        obtain ⟨bm, hmv, hund⟩ := chess_move_undo hwf hs he
        rw [if_pos rfl, hmv] at hsub
        simp only [Option.bind_eq_bind, Option.some_bind, Option.pure_def,
          Option.some_inj] at hsub
        subst hsub
        show Chess.undoCmd ⟨bm.1, g.turn.flip, g.history ++ [bm.2]⟩ =
          some (.reverted, g)
        unfold Chess.undoCmd
        rw [List.getLast?_concat]
        simp only [Option.bind_eq_bind]
        rw [hund]
        simp only [Option.some_bind, List.dropLast_concat, Side.flip_flip]
        rfl

/-- The checkers session after White plays `(0,5) → (1,4)` from the
initial position. -/
def chkAfterGame : Checkers.Game :=
  ⟨[[' ', 'b', ' ', 'b', ' ', 'b', ' ', 'b'],
    ['b', ' ', 'b', ' ', 'b', ' ', 'b', ' '],
    [' ', 'b', ' ', 'b', ' ', 'b', ' ', 'b'],
    [' ', ' ', ' ', ' ', ' ', ' ', ' ', ' '],
    [' ', 'w', ' ', ' ', ' ', ' ', ' ', ' '],
    [' ', ' ', 'w', ' ', 'w', ' ', 'w', ' '],
    [' ', 'w', ' ', 'w', ' ', 'w', ' ', 'w'],
    ['w', ' ', 'w', ' ', 'w', ' ', 'w', ' ']],
   .black, [⟨(0, 5), (1, 4), 'w', ' ', none⟩]⟩

/-- The chess session after White teleports the wizard
`(2,7) → (4,5)` from the initial position. -/
def chessAfterGame : Chess.Game :=
  ⟨[['r', 'n', 'w', 'a', 'k', 'h', 'n', 'r'],
    ['p', 'p', 'p', 'p', 'p', 'p', 'p', 'p'],
    [' ', ' ', ' ', ' ', ' ', ' ', ' ', ' '],
    [' ', ' ', ' ', ' ', ' ', ' ', ' ', ' '],
    [' ', ' ', ' ', ' ', ' ', ' ', ' ', ' '],
    [' ', ' ', ' ', ' ', 'W', ' ', ' ', ' '],
    ['P', 'P', 'P', 'P', 'P', 'P', 'P', 'P'],
    ['R', 'N', ' ', 'A', 'K', 'H', 'N', 'R']],
   .black, [⟨(2, 7), (4, 5), 'W', ' '⟩]⟩

/-- Witness for C1: undoing the checkers move `(0,5) → (1,4)` and the
chess wizard move `(2,7) → (4,5)` restores the fresh sessions. -/
theorem C1_witness :
    Checkers.undoCmd chkAfterGame = some (.reverted, Checkers.Game.init) ∧
    Chess.undoCmd chessAfterGame = some (.reverted, Chess.Game.init) := by
  constructor
  · exact C1_apply_undo_inverse.1 Checkers.Game.init (0, 5) (1, 4)
      (.ok, chkAfterGame) (by decide) (by decide) (by decide) (by decide) rfl
  · exact C1_apply_undo_inverse.2 Chess.Game.init (2, 7) (4, 5)
      (.ok, chessAfterGame) (by decide) (by decide) (by decide) (by decide) rfl

/-- One request of the interactive loop: a move submission or an
undo. -/
inductive Op where
  | move (s e : Sq)
  | undoOp
deriving Repr

/-- The state reached after one loop iteration of `CheckersGame.play`:
a submission or undo that does anything replaces the state, every
other outcome (rejection, no history, `IndexError`) leaves it. -/
def Checkers.step (g : Checkers.Game) (op : Op) : Checkers.Game :=
  match op with
  | .move s e =>
    match Checkers.submit g s e with
    | some (_, g') => g'
    | none => g
  | .undoOp =>
    match Checkers.undoCmd g with
    | some (_, g') => g'
    | none => g

/-- Folding a sequence of requests over a checkers session. -/
def Checkers.runOps (g : Checkers.Game) : List Op → Checkers.Game
  | [] => g
  | op :: rest => Checkers.runOps (Checkers.step g op) rest

/-- Same as `Checkers.step` for `ChessGame.play`. -/
def Chess.step (g : Chess.Game) (op : Op) : Chess.Game :=
  match op with
  | .move s e =>
    match Chess.submit g s e with
    | some (_, g') => g'
    | none => g
  | .undoOp =>
    match Chess.undoCmd g with
    | some (_, g') => g'
    | none => g

/-- Folding a sequence of requests over a chess session. -/
def Chess.runOps (g : Chess.Game) : List Op → Chess.Game
  | [] => g
  | op :: rest => Chess.runOps (Chess.step g op) rest

/-- The two possible outcomes of a checkers submission: untouched
state, or flipped side with one record appended. -/
theorem chk_submit_shape {g : Checkers.Game} {s e : Sq}
    {r : SubmitRes × Checkers.Game} (h : Checkers.submit g s e = some r) :
    r.2 = g ∨ ∃ (b' : Board) (m : Checkers.Move),
      r.2 = ⟨b', g.turn.flip, g.history ++ [m]⟩ := by
  unfold Checkers.submit at h
  cases hv : Checkers.is_valid_move g.board s e g.turn with
  | none => rw [hv] at h; exact absurd h (by simp)
  | some p =>
    obtain ⟨valid, cap⟩ := p
    rw [hv] at h
    simp only [Option.bind_eq_bind, Option.some_bind] at h
    cases valid with
    | false =>
      simp only [Bool.false_eq_true, if_false, Option.pure_def,
        Option.some_inj] at h
      exact Or.inl (by rw [← h])
    | true =>
      simp only [if_true] at h
      cases hm : Checkers.move_piece g.board s e cap with
      | none => rw [hm] at h; exact absurd h (by simp)
      | some bm =>
        rw [hm] at h
        simp only [Option.bind_eq_bind, Option.some_bind, Option.pure_def,
          Option.some_inj] at h
        exact Or.inr ⟨bm.1, bm.2, by rw [← h]⟩

/-- The two possible outcomes of a checkers undo: untouched state, or
flipped side with the last record removed from a nonempty history. -/
theorem chk_undo_shape {g : Checkers.Game} {r : UndoRes × Checkers.Game}
    (h : Checkers.undoCmd g = some r) :
    r.2 = g ∨ (g.history ≠ [] ∧ ∃ b' : Board,
      r.2 = ⟨b', g.turn.flip, g.history.dropLast⟩) := by
  unfold Checkers.undoCmd at h
  cases hl : g.history.getLast? with
  | none =>
    rw [hl] at h
    simp only [Option.pure_def, Option.some_inj] at h
    exact Or.inl (by rw [← h])
  | some m =>
    rw [hl] at h
    simp only [Option.bind_eq_bind] at h
    cases hu : Checkers.undo_move g.board m with
    | none => rw [hu] at h; exact absurd h (by simp)
    | some b' =>
      rw [hu] at h
      simp only [Option.some_bind, Option.pure_def, Option.some_inj] at h
      refine Or.inr ⟨?_, b', by rw [← h]⟩
      intro hnil
      rw [hnil] at hl
      exact absurd hl (by simp)

/-- The two possible outcomes of a chess submission. -/
theorem chess_submit_shape {g : Chess.Game} {s e : Sq}
    {r : SubmitRes × Chess.Game} (h : Chess.submit g s e = some r) :
    r.2 = g ∨ ∃ (b' : Board) (m : Chess.Move),
      r.2 = ⟨b', g.turn.flip, g.history ++ [m]⟩ := by
  unfold Chess.submit at h
  cases hv : Chess.is_valid_move g.board s e g.turn with
  | none => rw [hv] at h; exact absurd h (by simp)
  | some valid =>
    rw [hv] at h
    simp only [Option.bind_eq_bind, Option.some_bind] at h
    cases valid with
    | false =>
      simp only [Bool.false_eq_true, if_false, Option.pure_def,
        Option.some_inj] at h
      exact Or.inl (by rw [← h])
    | true =>
      simp only [if_true] at h
      cases hm : Chess.move_piece g.board s e with
      | none => rw [hm] at h; exact absurd h (by simp)
      | some bm =>
        rw [hm] at h
        simp only [Option.bind_eq_bind, Option.some_bind, Option.pure_def,
          Option.some_inj] at h
        exact Or.inr ⟨bm.1, bm.2, by rw [← h]⟩

/-- The two possible outcomes of a chess undo. -/
theorem chess_undo_shape {g : Chess.Game} {r : UndoRes × Chess.Game}
    (h : Chess.undoCmd g = some r) :
    r.2 = g ∨ (g.history ≠ [] ∧ ∃ b' : Board,
      r.2 = ⟨b', g.turn.flip, g.history.dropLast⟩) := by
  unfold Chess.undoCmd at h
  cases hl : g.history.getLast? with
  | none =>
    rw [hl] at h
    simp only [Option.pure_def, Option.some_inj] at h
    exact Or.inl (by rw [← h])
  | some m =>
    rw [hl] at h
    simp only [Option.bind_eq_bind] at h
    cases hu : Chess.undo_move g.board m with
    | none => rw [hu] at h; exact absurd h (by simp)
    | some b' =>
      rw [hu] at h
      simp only [Option.some_bind, Option.pure_def, Option.some_inj] at h
      refine Or.inr ⟨?_, b', by rw [← h]⟩
      intro hnil
      rw [hnil] at hl
      exact absurd hl (by simp)

/-- One loop iteration preserves the parity invariant: the side to
move is White exactly when the history length is even. -/
theorem chk_step_parity (g : Checkers.Game) (op : Op)
    (h : g.turn = .white ↔ Even g.history.length) :
    (Checkers.step g op).turn = .white ↔
      Even (Checkers.step g op).history.length := by
  cases op with
  | move s e =>
    cases hsub : Checkers.submit g s e with
    | none => simpa only [Checkers.step, hsub] using h
    | some r =>
      obtain ⟨res, g2⟩ := r
      simp only [Checkers.step, hsub]
      rcases chk_submit_shape hsub with hr | ⟨b', m, hr⟩
      · have hg : g2 = g := hr
        rw [hg]
        exact h
      · have hg : g2 = ⟨b', g.turn.flip, g.history ++ [m]⟩ := hr
        rw [hg]
        simp only [List.length_append, List.length_cons, List.length_nil]
        cases ht : g.turn <;> rw [ht] at h <;>
          simp [Side.flip, Nat.even_iff] at h ⊢ <;> omega
  | undoOp =>
    cases hsub : Checkers.undoCmd g with
    | none => simpa only [Checkers.step, hsub] using h
    | some r =>
      obtain ⟨res, g2⟩ := r
      simp only [Checkers.step, hsub]
      rcases chk_undo_shape hsub with hr | ⟨hne, b', hr⟩
      · have hg : g2 = g := hr
        rw [hg]
        exact h
      · have hg : g2 = ⟨b', g.turn.flip, g.history.dropLast⟩ := hr
        have hpos : 0 < g.history.length := List.length_pos.mpr hne
        rw [hg]
        simp only [List.length_dropLast]
        cases ht : g.turn <;> rw [ht] at h <;>
          simp [Side.flip, Nat.even_iff] at h ⊢ <;> omega

/-- Same invariant preservation for the chess loop. -/
theorem chess_step_parity (g : Chess.Game) (op : Op)
    (h : g.turn = .white ↔ Even g.history.length) :
    (Chess.step g op).turn = .white ↔
      Even (Chess.step g op).history.length := by
  cases op with
  | move s e =>
    cases hsub : Chess.submit g s e with
    | none => simpa only [Chess.step, hsub] using h
    | some r =>
      obtain ⟨res, g2⟩ := r
      simp only [Chess.step, hsub]
      rcases chess_submit_shape hsub with hr | ⟨b', m, hr⟩
      · have hg : g2 = g := hr
        rw [hg]
        exact h
      · have hg : g2 = ⟨b', g.turn.flip, g.history ++ [m]⟩ := hr
        rw [hg]
        simp only [List.length_append, List.length_cons, List.length_nil]
        cases ht : g.turn <;> rw [ht] at h <;>
          simp [Side.flip, Nat.even_iff] at h ⊢ <;> omega
  | undoOp =>
    cases hsub : Chess.undoCmd g with
    | none => simpa only [Chess.step, hsub] using h
    | some r =>
      obtain ⟨res, g2⟩ := r
      simp only [Chess.step, hsub]
      rcases chess_undo_shape hsub with hr | ⟨hne, b', hr⟩
      · have hg : g2 = g := hr
        rw [hg]
        exact h
      · have hg : g2 = ⟨b', g.turn.flip, g.history.dropLast⟩ := hr
        have hpos : 0 < g.history.length := List.length_pos.mpr hne
        rw [hg]
        simp only [List.length_dropLast]
        cases ht : g.turn <;> rw [ht] at h <;>
          simp [Side.flip, Nat.even_iff] at h ⊢ <;> omega

theorem chk_runOps_parity (ops : List Op) (g : Checkers.Game)
    (h : g.turn = .white ↔ Even g.history.length) :
    (Checkers.runOps g ops).turn = .white ↔
      Even (Checkers.runOps g ops).history.length := by
  induction ops generalizing g with
  | nil => exact h
  | cons op rest ih => exact ih (Checkers.step g op) (chk_step_parity g op h)

theorem chess_runOps_parity (ops : List Op) (g : Chess.Game)
    (h : g.turn = .white ↔ Even g.history.length) :
    (Chess.runOps g ops).turn = .white ↔
      Even (Chess.runOps g ops).history.length := by
  induction ops generalizing g with
  | nil => exact h
  | cons op rest ih => exact ih (Chess.step g op) (chess_step_parity g op h)

/-- Claim C10: starting from a fresh session of either variant, after
any sequence of loop requests (each successful submission appends one
record and flips the side, each successful undo removes one record
and flips it back, and failed requests change nothing), the side to
move is White exactly when the history length is even. -/
theorem C10_side_parity :
    ∀ ops : List Op,
    ((Checkers.runOps Checkers.Game.init ops).turn = .white ↔
      Even (Checkers.runOps Checkers.Game.init ops).history.length) ∧
    ((Chess.runOps Chess.Game.init ops).turn = .white ↔
      Even (Chess.runOps Chess.Game.init ops).history.length) :=
  fun ops =>
    ⟨chk_runOps_parity ops _ (by simp [Checkers.Game.init]),
     chess_runOps_parity ops _ (by simp [Chess.Game.init])⟩

/-- Membership in the candidate list of one piece and one direction. -/
theorem Checkers.mem_candidate_moves {b : Board} {x y : Nat} {d : Int × Int}
    (hd : d ∈ Checkers.directions) {p : Sq × Sq} :
    p ∈ Checkers.candidate_moves b x y d ↔
      (0 ≤ (x : Int) + d.1 ∧ (x : Int) + d.1 < 8 ∧
       0 ≤ (y : Int) + d.2 ∧ (y : Int) + d.2 < 8) ∧
      ((cellAt b ((x : Int) + d.1).toNat ((y : Int) + d.2).toNat = ' ' ∧
        p = (((x : Int), (y : Int)), ((x : Int) + d.1, (y : Int) + d.2))) ∨
       (cellAt b ((x : Int) + d.1).toNat ((y : Int) + d.2).toNat ≠ ' ' ∧
        0 ≤ (x : Int) + d.1 + d.1 ∧ (x : Int) + d.1 + d.1 < 8 ∧
        0 ≤ (y : Int) + d.2 + d.2 ∧ (y : Int) + d.2 + d.2 < 8 ∧
        cellAt b ((x : Int) + d.1 + d.1).toNat
          ((y : Int) + d.2 + d.2).toNat = ' ' ∧
        p = (((x : Int), (y : Int)),
          ((x : Int) + d.1 + d.1, (y : Int) + d.2 + d.2)))) := by
  have hd1 : d.1 = 1 ∨ d.1 = -1 := by
    simp only [Checkers.directions, List.mem_cons, List.not_mem_nil,
      or_false] at hd
    rcases hd with rfl | rfl | rfl | rfl <;> simp
  have hd2 : d.2 = 1 ∨ d.2 = -1 := by
    simp only [Checkers.directions, List.mem_cons, List.not_mem_nil,
      or_false] at hd
    rcases hd with rfl | rfl | rfl | rfl <;> simp
  unfold Checkers.candidate_moves
  dsimp only
  split_ifs with h1 h2 h3 h4
  · simp only [List.mem_singleton]
    tauto
  · simp only [List.mem_singleton]
    tauto
  · simp only [List.not_mem_nil, false_iff]
    tauto
  · exact absurd ⟨by omega, by omega⟩ h3
  · simp only [List.not_mem_nil, false_iff]
    tauto

/-- Claim C5 (amended): the generator `get_possible_moves` returns exactly, for each
piece of the side to move and each of the four diagonal directions,
the in-bounds neighbor square when it is empty, and — when that
neighbor is occupied by ANY piece, the mover's own or an opponent's —
the in-bounds square beyond it in the same direction when that square
is empty.  (The source only tests that the neighbor is occupied, so
jumps over the mover's own pieces are also generated.) -/
theorem C5_generated_moves :
    ∀ (b : Board) (turn : Side) (p : Sq × Sq),
    p ∈ Checkers.get_possible_moves b turn ↔
      ∃ x y : Nat, x < 8 ∧ y < 8 ∧
        ((turn = .white ∧ cellAt b x y = 'w') ∨
         (turn = .black ∧ cellAt b x y = 'b')) ∧
        ∃ d ∈ Checkers.directions,
          (0 ≤ (x : Int) + d.1 ∧ (x : Int) + d.1 < 8 ∧
           0 ≤ (y : Int) + d.2 ∧ (y : Int) + d.2 < 8) ∧
          ((cellAt b ((x : Int) + d.1).toNat ((y : Int) + d.2).toNat = ' ' ∧
            p = (((x : Int), (y : Int)), ((x : Int) + d.1, (y : Int) + d.2))) ∨
           (cellAt b ((x : Int) + d.1).toNat ((y : Int) + d.2).toNat ≠ ' ' ∧
            0 ≤ (x : Int) + d.1 + d.1 ∧ (x : Int) + d.1 + d.1 < 8 ∧
            0 ≤ (y : Int) + d.2 + d.2 ∧ (y : Int) + d.2 + d.2 < 8 ∧
            cellAt b ((x : Int) + d.1 + d.1).toNat
              ((y : Int) + d.2 + d.2).toNat = ' ' ∧
            p = (((x : Int), (y : Int)),
              ((x : Int) + d.1 + d.1, (y : Int) + d.2 + d.2)))) := by
  intro b turn p
  unfold Checkers.get_possible_moves
  simp only [List.mem_flatMap, List.mem_range]
  constructor
  · rintro ⟨y, hy, x, hx, hmem⟩
    by_cases hown : (turn = .white ∧ cellAt b x y = 'w') ∨
        (turn = .black ∧ cellAt b x y = 'b')
    · rw [if_pos hown, List.mem_flatMap] at hmem
      obtain ⟨d, hd, hpd⟩ := hmem
      exact ⟨x, y, hx, hy, hown, d, hd,
        (Checkers.mem_candidate_moves hd).mp hpd⟩
    · rw [if_neg hown] at hmem
      exact absurd hmem (List.not_mem_nil p)
  · rintro ⟨x, y, hx, hy, hown, d, hd, hrest⟩
    refine ⟨y, hy, x, hx, ?_⟩
    rw [if_pos hown, List.mem_flatMap]
    exact ⟨d, hd, (Checkers.mem_candidate_moves hd).mpr hrest⟩
